import Mathlib

/-!
Verification development for the visionaree repository: the
segmentation/captioning pipeline and the query/ranking engine, together with
the frontend recording layer (`frontend/app/lib/webcam-recorder.ts`), the
frontend service layer (`video-service`), and the CDK upload-trigger wiring
(`infra/lib/backend-stack.ts`).

The backend Python lambda bodies (`video_query_handler.py`,
`s3_event_processor.py`, `job_status_handler.py`) are declared in
`backend-stack.ts` but their sources are not part of the source tree; the
corresponding definitions below are modelled from the specification and are
marked as such in their doc comments.  Everything else is a direct shallow
embedding of the TypeScript sources.
-/

namespace Visionaree

/-! ### String helpers (shallow embedding of the JS string operations used) -/

/-- Lower-case a string character by character (JS `toLowerCase` on ASCII). -/
def strLower (s : String) : String := s.map Char.toLower

/-- `p` occurs at the start of `s` (JS `startsWith`). -/
def strStartsWith (p s : String) : Bool := p.data.isPrefixOf s.data

/-- `p` occurs at the end of `s` (JS `endsWith`, the S3 suffix filter). -/
def strEndsWith (p s : String) : Bool := p.data.reverse.isPrefixOf s.data.reverse

/-- `p` occurs somewhere inside `s` (JS `includes`). -/
def strContains (p s : String) : Bool := s.data.tails.any (fun t => p.data.isPrefixOf t)

/-- Strip leading and trailing non-alphanumeric characters from a token. -/
def stripPunctuation (w : String) : String :=
  String.mk (((w.data.dropWhile (fun c => !c.isAlphanum)).reverse.dropWhile
    (fun c => !c.isAlphanum)).reverse)

/-! ### QueryEngine relevance scoring -/

/-- Modelled from the spec: the QueryEngine's caption tokenisation
(`video_query_handler.py` is declared in `infra/lib/backend-stack.ts` but its
Python source is missing from the tree).  The caption is lower-cased, split on
whitespace, and each token is stripped of leading/trailing punctuation. -/
def captionWords (c : String) : List String :=
  (((strLower c).split Char.isWhitespace).map stripPunctuation).filter
    (fun w => !w.isEmpty)

/-- Modelled from the spec: the QueryEngine's query tokenisation - split on
whitespace, case-insensitive, punctuation-trimmed, duplicates counted once. -/
def queryTokens (q : String) : List String :=
  ((((strLower q).split Char.isWhitespace).map stripPunctuation).filter
    (fun w => !w.isEmpty)).dedup

/-- Modelled from the spec: a query word found as a whole word of the caption. -/
def wholeWordIn (w : String) (cws : List String) : Bool := cws.contains w

/-- Modelled from the spec: a query word found as a substring of some caption word. -/
def subWordIn (w : String) (cws : List String) : Bool :=
  cws.any (fun cw => strContains w cw)

/-- Modelled from the spec: the full query string appearing verbatim
(case-insensitively) in the caption. -/
def phraseMatch (q c : String) : Bool := strContains (strLower q) (strLower c)

/-- Modelled from the spec: points contributed by one distinct query word -
+2 for a whole-word match, otherwise +1 for a partial (substring) match; a
whole-word match is exclusive of partial credit for the same token. -/
def wordPoints (cws : List String) (w : String) : Nat :=
  if wholeWordIn w cws then 2 else if subWordIn w cws then 1 else 0

/-- Modelled from the spec: the QueryEngine's relevance score of a caption
against a free-text query (+10 exact phrase, +2 per distinct whole word,
+1 per partial-only word). -/
def relevanceScore (q c : String) : Nat :=
  (if phraseMatch q c then 10 else 0)
    + ((queryTokens q).map (wordPoints (captionWords c))).sum

/-! ### QueryEngine data model and response -/

/-- Job status values persisted by the pipeline. -/
inductive JobStatus where
  | pending
  | processing
  | done
  | error
  deriving DecidableEq

/-- The job record the QueryEngine loads (JobStateStore row). -/
structure Job where
  videoFileName : String
  videoDuration : ℚ
  totalSegments : Nat
  processedSegments : Nat
  status : JobStatus
  deriving DecidableEq

/-- A persisted segment record as read by the QueryEngine; an empty caption
stands for a segment whose captioning failed. -/
structure SegRecord where
  segmentStartTime : ℚ
  caption : String
  deriving DecidableEq

/-- A segment annotated with its relevance score (ephemeral QueryResult row). -/
structure ScoredSeg where
  segmentStartTime : ℚ
  caption : String
  score : Nat
  deriving DecidableEq

/-- Modelled from the spec: score every segment that has a non-empty caption. -/
def scoreSegments (q : String) (segs : List SegRecord) : List ScoredSeg :=
  (segs.filter (fun s => !s.caption.isEmpty)).map
    (fun s => ⟨s.segmentStartTime, s.caption, relevanceScore q s.caption⟩)

/-- Modelled from the spec: a segment is relevant when its score is > 0. -/
def relevantSegments (q : String) (segs : List SegRecord) : List ScoredSeg :=
  (scoreSegments q segs).filter (fun t => decide (0 < t.score))

/-- The ranking order: descending score, ties broken by ascending start time. -/
def rankOrder (a b : ScoredSeg) : Prop :=
  b.score < a.score ∨ (a.score = b.score ∧ a.segmentStartTime ≤ b.segmentStartTime)

instance : DecidableRel rankOrder := fun a b => by
  unfold rankOrder
  exact inferInstance

instance : IsTotal ScoredSeg rankOrder := by
  constructor
  intro a b
  unfold rankOrder
  rcases lt_trichotomy a.score b.score with h | h | h
  · exact Or.inr (Or.inl h)
  · rcases le_total a.segmentStartTime b.segmentStartTime with ht | ht
    · exact Or.inl (Or.inr ⟨h, ht⟩)
    · exact Or.inr (Or.inr ⟨h.symm, ht⟩)
  · exact Or.inl (Or.inl h)

instance : IsTrans ScoredSeg rankOrder := by
  constructor
  intro a b c hab hbc
  unfold rankOrder at *
  rcases hab with h1 | ⟨h1, t1⟩
  · rcases hbc with h2 | ⟨h2, t2⟩
    · exact Or.inl (h2.trans h1)
    · exact Or.inl (h2 ▸ h1)
  · rcases hbc with h2 | ⟨h2, t2⟩
    · exact Or.inl (h1 ▸ h2)
    · exact Or.inr ⟨h1.trans h2, t1.trans t2⟩

/-- Modelled from the spec: relevant segments sorted descending by score with
ties broken by ascending `segmentStartTime`. -/
def rankedSegments (q : String) (segs : List SegRecord) : List ScoredSeg :=
  List.insertionSort rankOrder (relevantSegments q segs)

/-- Matched time range of the summary. -/
structure TimeRange where
  earliest : ℚ
  latest : ℚ
  span : ℚ
  deriving DecidableEq

/-- Relevance aggregate of the summary. -/
structure RelevanceInfo where
  maxScore : Nat
  highRelevanceCount : Nat
  averageScore : ℚ
  deriving DecidableEq

/-- Summary part of a query response. -/
inductive QuerySummary where
  | noResults (message : String) (suggestions : List String)
  | found (message : String) (timeRange : TimeRange) (relevanceInfo : RelevanceInfo)
      (topMatches : List ScoredSeg)
  deriving DecidableEq

/-- The "no results" suggestions (documented in VIDEO_QUERY_API.md). -/
def noResultsSuggestions : List String :=
  ["Try different keywords or phrases",
   "Check if the video analysis has completed",
   "Use more general terms if being too specific"]

/-- Round a rational to two decimal places. -/
def round2 (x : ℚ) : ℚ := (round (100 * x) : ℤ) / 100

/-- Modelled from the spec: build the summary - a no-results shape with
suggestions when nothing matched, otherwise time range, max score, high
relevance count (score at least 8), rounded average and the top 3 matches. -/
def buildSummary (q : String) (ranked : List ScoredSeg) : QuerySummary :=
  match ranked with
  | [] => .noResults ("No relevant segments found for query: " ++ q) noResultsSuggestions
  | t :: ts =>
    let starts := (t :: ts).map (fun u => u.segmentStartTime)
    let earliest := starts.foldl min t.segmentStartTime
    let latest := starts.foldl max t.segmentStartTime
    let scores : List Nat := (t :: ts).map (fun u => u.score)
    let maxScore : Nat := scores.foldl max 0
    let high := ((t :: ts).filter (fun u => decide (8 ≤ u.score))).length
    let avg := round2 ((scores.sum : ℚ) / ((t :: ts).length : ℚ))
    .found ("Found " ++ toString (t :: ts).length ++ " segments related to " ++ q)
      ⟨earliest, latest, latest - earliest⟩ ⟨maxScore, high, avg⟩ ((t :: ts).take 3)

/-- Response of the query handler, either error-shaped or success-shaped. -/
inductive QueryResponse where
  | error (jobId query message : String)
  | success (jobId query : String) (jobInfo : Job) (totalSegments relevantCount : Nat)
      (segments : List ScoredSeg) (summary : QuerySummary)
  deriving DecidableEq

/-- Modelled from the spec: the QueryEngine entry point
(`video_query_handler.lambda_handler`, missing from the tree).  If the job
record is absent or its status is not done it returns an error-shaped
response without throwing; otherwise it scores, filters and ranks the
segments and assembles the success response. -/
def handleQuery (jobId : String) (jobRecord : Option Job) (segs : List SegRecord)
    (q : String) : QueryResponse :=
  match jobRecord with
  | none => .error jobId q "Job not found or analysis not completed"
  | some j =>
    if j.status = .done then
      let ranked := rankedSegments q segs
      .success jobId q j segs.length ranked.length ranked (buildSummary q ranked)
    else .error jobId q "Job not found or analysis not completed"

/-! ### Job lifecycle (IngestionOrchestrator state machine) -/

/-- Events driving one job's lifecycle: the splitter succeeding with `n`
segments, the splitter failing, or one segment settling (success or
exhausted-retry failure). -/
inductive JobEvent where
  | splitSuccess (n : Nat)
  | splitFail
  | settle
  deriving DecidableEq

/-- The per-job progress record (status, totalSegments, processedSegments). -/
structure JobState where
  status : JobStatus
  total : Nat
  processed : Nat
  deriving DecidableEq

/-- A job record is created `pending` with no segments counted. -/
def initialJobState : JobState := ⟨.pending, 0, 0⟩

/-- A job status is terminal when it is done or error. -/
def isTerminal (s : JobState) : Bool :=
  decide (s.status = .done) || decide (s.status = .error)

/-- Modelled from the spec: the IngestionOrchestrator's transition function
(`s3_event_processor.py`, declared in `infra/lib/backend-stack.ts` but missing
from the tree).  Split failure moves pending to error; split success sets
`totalSegments` and moves to processing; each settlement conditionally
increments `processedSegments` (the spec requires a conditional update that
never double-counts) and sets done exactly when the counter reaches the
total. -/
def jobStep (s : JobState) (e : JobEvent) : JobState :=
  match e with
  | .splitFail => if s.status = .pending then { s with status := .error } else s
  | .splitSuccess n => if s.status = .pending then ⟨.processing, n, 0⟩ else s
  | .settle =>
    if s.status = .processing ∧ s.processed < s.total then
      ⟨if s.processed + 1 = s.total then .done else .processing, s.total, s.processed + 1⟩
    else s

/-- Run a job from its initial record through a list of events. -/
def runJob (es : List JobEvent) : JobState := es.foldl jobStep initialJobState

/-- Number of steps along a trace at which the status first becomes terminal. -/
def termFlips : JobState → List JobEvent → Nat
  | _, [] => 0
  | s, e :: es =>
    (if isTerminal s = false ∧ isTerminal (jobStep s e) = true then 1 else 0)
      + termFlips (jobStep s e) es

/-- Number of steps along a trace at which `processed` reaches `total`. -/
def reachFlips : JobState → List JobEvent → Nat
  | _, [] => 0
  | s, e :: es =>
    (if s.processed < s.total ∧ (jobStep s e).processed = (jobStep s e).total then 1 else 0)
      + reachFlips (jobStep s e) es

/-! ### Webcam recorder (frontend/app/lib/webcam-recorder.ts) -/

/-- Threat level attached to a captioned chunk. -/
inductive ThreatLevel where
  | low
  | medium
  | high
  deriving DecidableEq

/-- Embeds the `RecordedChunk` interface (webcam-recorder.ts lines 4-13); the
blob is abstracted by its size. -/
structure RecordedChunk where
  blobSize : Nat
  startTime : ℚ
  duration : ℚ
  timestamp : Nat
  caption : Option String := none
  captionError : Option String := none
  captionProcessing : Bool := false
  threat_level : Option ThreatLevel := none
  deriving DecidableEq

/-- Ascending-timestamp order used by `getChunks` (`a.timestamp - b.timestamp`
comparator, webcam-recorder.ts line 74). -/
def chunkTsOrder (a b : RecordedChunk) : Prop := a.timestamp ≤ b.timestamp

instance : DecidableRel chunkTsOrder := fun a b => by
  unfold chunkTsOrder
  exact inferInstance

instance : IsTotal RecordedChunk chunkTsOrder :=
  ⟨fun a b => Nat.le_total a.timestamp b.timestamp⟩

instance : IsTrans RecordedChunk chunkTsOrder :=
  ⟨fun _ _ _ h1 h2 => Nat.le_trans h1 h2⟩

/-- Stable sort of the chunk list by ascending timestamp (JS `sort` is
stable; insertion sort is its stable model). -/
def sortByTimestamp (cs : List RecordedChunk) : List RecordedChunk :=
  List.insertionSort chunkTsOrder cs

/-- Reassign `startTime` cumulatively: the first chunk starts at `acc`, each
subsequent chunk at the previous start plus its duration
(webcam-recorder.ts lines 75-83, `accumulatedTime`). -/
def assignStarts (acc : ℚ) : List RecordedChunk → List RecordedChunk
  | [] => []
  | c :: cs => { c with startTime := acc } :: assignStarts (acc + c.duration) cs

/-- Embeds `WebcamRecorder.getChunks` (webcam-recorder.ts lines 73-84). -/
def getChunks (cs : List RecordedChunk) : List RecordedChunk :=
  assignStarts 0 (sortByTimestamp cs)

/-- Embeds `WebcamRecorder.getTotalDuration` (webcam-recorder.ts lines 86-88). -/
def getTotalDuration (cs : List RecordedChunk) : ℚ :=
  (cs.map (fun c => c.duration)).sum

/-- Environment of one recording interval: how many non-empty data events the
MediaRecorder delivered, the measured elapsed seconds
(`(Date.now() - segmentStartTime) / 1000`, line 191) and the wall-clock
timestamp at which the chunk is created (`Date.now()`, line 197). -/
structure SegEnv where
  dataCount : Nat
  elapsed : ℚ
  now : Nat
  deriving DecidableEq

/-- Recorder state: the running start offset and the chunk list. -/
structure RecState where
  currentChunkStartTime : ℚ
  chunks : List RecordedChunk
  deriving DecidableEq

/-- Recorder state at `startRecording`. -/
def initRecState : RecState := ⟨0, []⟩

/-- The constant timer that stops each segment recorder
(webcam-recorder.ts line 181, `setTimeout(..., 5000)`). -/
def segmentTimerMs : Nat := 5000

/-- The nominal segment window in seconds (the 5000 ms timer). -/
def nominalSegmentSeconds : ℚ := 5

/-- Two chunks are contiguous when the second starts where the first ends. -/
def contiguous (a b : RecordedChunk) : Prop :=
  b.startTime = a.startTime + a.duration

/-- Embeds `WebcamRecorder.processSegment` (webcam-recorder.ts lines 184-222):
if the interval delivered data, a chunk is appended carrying the current
start offset and the measured duration, and the offset advances by that
duration; otherwise the state is unchanged.  The next segment is started
regardless of any caption outcome. -/
def processSegment (st : RecState) (e : SegEnv) : RecState :=
  if 0 < e.dataCount then
    { currentChunkStartTime := st.currentChunkStartTime + e.elapsed,
      chunks := st.chunks ++
        [{ blobSize := e.dataCount, startTime := st.currentChunkStartTime,
           duration := e.elapsed, timestamp := e.now, captionProcessing := true }] }
  else st

/-- The recorder's segment loop over a list of interval environments. -/
def recordLoop (es : List SegEnv) : RecState := es.foldl processSegment initRecState

/-- Structural invariant of the recorder state: the chunk list is contiguous,
its first chunk starts at 0, its last chunk ends at the running offset, and
the offset is 0 while no chunk exists. -/
def recWF (st : RecState) : Prop :=
  List.Chain' contiguous st.chunks
    ∧ st.chunks.head?.elim True (fun c => c.startTime = 0)
    ∧ st.chunks.getLast?.elim True
        (fun z => z.startTime + z.duration = st.currentChunkStartTime)
    ∧ (st.chunks = [] → st.currentChunkStartTime = 0)

/-! ### Caption processing and failure isolation -/

/-- A successful inference result (caption text and threat level). -/
structure CaptionResult where
  caption : String
  threat_level : ThreatLevel
  deriving DecidableEq

/-- Modelled from the spec: the inference call wrapper (`analyzeVideoChunk`
of the frontend `video-service`, imported by webcam-recorder.ts but missing
from the tree).  `env i` is the outcome of the i-th attempt; a failing call
is retried up to the fixed attempt bound; backoff delays are real-time and
abstracted away, only the attempts are modelled.  Returns the first success
together with the number of attempts made. -/
def callWithRetry (env : Nat → Option CaptionResult) :
    Nat → Nat → Option CaptionResult × Nat
  | _, 0 => (none, 0)
  | start, fuel + 1 =>
    match env start with
    | some r => (some r, 1)
    | none =>
      let rest := callWithRetry env (start + 1) fuel
      (rest.1, rest.2 + 1)

/-- Modelled from the spec: `analyzeVideoChunk` with a maximum attempt bound. -/
def analyzeVideoChunk (env : Nat → Option CaptionResult) (maxAttempts : Nat) :
    Option CaptionResult × Nat :=
  callWithRetry env 0 maxAttempts

/-- Update the first element satisfying `p` (JS `findIndex` followed by an
in-place update, webcam-recorder.ts lines 269-305). -/
def updateFirst (p : RecordedChunk → Bool) (f : RecordedChunk → RecordedChunk) :
    List RecordedChunk → List RecordedChunk
  | [] => []
  | c :: cs => if p c then f c :: cs else c :: updateFirst p f cs

/-- Successful settlement of a chunk's caption
(webcam-recorder.ts lines 272-281). -/
def applyCaptionSuccess (r : CaptionResult) (c : RecordedChunk) : RecordedChunk :=
  { c with caption := some r.caption, threat_level := some r.threat_level,
           captionProcessing := false, captionError := none }

/-- Failed settlement of a chunk's caption: the per-segment error is stored
and the processing flag cleared (webcam-recorder.ts lines 294-305). -/
def applyCaptionFailure (msg : String) (c : RecordedChunk) : RecordedChunk :=
  { c with captionError := some msg, captionProcessing := false }

/-- Embeds `WebcamRecorder.processCaptionForChunk`
(webcam-recorder.ts lines 259-307): the settled outcome updates the first
chunk with the matching timestamp and touches nothing else; exceptions are
caught inside the function, so settlement never escapes to the caller. -/
def processCaptionForChunk (chunks : List RecordedChunk) (ts : Nat)
    (outcome : Option CaptionResult) (errMsg : String) : List RecordedChunk :=
  match outcome with
  | some r => updateFirst (fun c => c.timestamp == ts) (applyCaptionSuccess r) chunks
  | none => updateFirst (fun c => c.timestamp == ts) (applyCaptionFailure errMsg) chunks

/-- One chunk's caption settlement end to end: run the (retried) inference
call and apply its outcome to the chunk list; also reports the number of
attempts made. -/
def settleChunkCaption (env : Nat → Option CaptionResult) (maxAttempts : Nat)
    (chunks : List RecordedChunk) (ts : Nat) (errMsg : String) :
    List RecordedChunk × Nat :=
  let r := analyzeVideoChunk env maxAttempts
  (processCaptionForChunk chunks ts r.1 errMsg, r.2)

/-! ### Upload trigger (infra/lib/backend-stack.ts lines 484-529) -/

/-- The five `addEventNotification` filter rules (path start, key ending)
registered on the upload bucket for `OBJECT_CREATED` events, all targeting
the `s3EventProcessor` lambda. -/
def ingestionTriggerRules : List (String × String) :=
  [("videos/", ".mp4"), ("videos/", ".mov"), ("videos/", ".avi"),
   ("videos/", ".mkv"), ("videos/", ".webm")]

/-- An uploaded object key triggers the ingestion processor exactly when some
registered rule matches it (S3 filter semantics: the key starts with the
rule's first component and ends with its second). -/
def triggersIngestion (key : String) : Bool :=
  ingestionTriggerRules.any (fun r => strStartsWith r.1 key && strEndsWith r.2 key)

/-- The file-extension allowlist of the upload trigger. -/
def allowedVideoExtensions : List String := [".mp4", ".mov", ".avi", ".mkv", ".webm"]

/-! ### Derived job identifiers and endpoints (video-service, VideoPrompt.vue) -/

/-- The API gateway base URL (video-service line 9). -/
def apiBaseUrl : String := "https://g6mq8j3qre.execute-api.us-east-1.amazonaws.com/prod"

/-- Job id derived at upload time (`uploadVideoToS3`, video-service line 190). -/
def uploadJobId (videoId : String) : String := "upload-" ++ videoId

/-- Job id derived when querying (`submitPrompt`, VideoPrompt.vue line 327). -/
def promptJobId (videoId : String) : String := "upload-" ++ videoId

/-- Job id derived when polling (`checkBackendStatus`, video-service line 330). -/
def statusJobId (videoId : String) : String := "upload-" ++ videoId

/-- URL of the query endpoint (`queryVideo`, video-service line 99). -/
def askJobUrl (jobId : String) : String := apiBaseUrl ++ "/video/" ++ jobId ++ "/ask"

/-- URL of the status endpoint (`checkVideoStatus`, video-service line 127). -/
def statusJobUrl (jobId : String) : String := apiBaseUrl ++ "/video/" ++ jobId ++ "/status"

/-! ### Declared response shape of POST /video/(jobId)/ask -/

/-- Field names of the `VideoQueryResponse` interface declared in the
frontend service layer (video-service lines 59-65), the shape
`VideoPrompt.submitPrompt` consumes. -/
def videoQueryResponseFields : List String :=
  ["jobId", "status", "query", "jobInfo", "ai_analysis"]

/-- Field names of the `AiAnalysis` part of the declared response
(video-service lines 52-57). -/
def aiAnalysisFields : List String :=
  ["status", "filtered_segments", "insights", "total_relevant_segments"]

/-- Field names the spec's QueryEngine step 6 claims for the response
(stated from the spec's words, for comparison with the declared shape). -/
def specQueryResponseFields : List String :=
  ["jobId", "query", "status", "jobInfo", "searchResults", "summary"]

/-- Field names the spec claims inside `searchResults`. -/
def specSearchResultsFields : List String :=
  ["totalSegments", "relevantSegments", "segments"]

/-! ### Sample data used by the witnesses -/

/-- A completed sample job. -/
def sampleJob : Job :=
  ⟨"security_footage.mp4", 120, 24, 24, .done⟩

/-- A still-processing sample job. -/
def processingJob : Job :=
  ⟨"security_footage.mp4", 120, 24, 7, .processing⟩

/-- Sample persisted segments. -/
def sampleSegs : List SegRecord :=
  [⟨15, "A person walks across the parking lot carrying a briefcase"⟩,
   ⟨45, "Person walking towards the building entrance"⟩]

/-- Sample recorded chunks (timestamps out of order on purpose). -/
def sampleChunks : List RecordedChunk :=
  [{ blobSize := 3, startTime := 7, duration := 5, timestamp := 200 },
   { blobSize := 2, startTime := 0, duration := 4, timestamp := 100 }]

/-- An inference environment in which every attempt fails. -/
def envNone : Nat → Option CaptionResult := fun _ => none

/-- A recording environment whose timers all fire exactly on the nominal
window. -/
def idealEnv : List SegEnv :=
  [⟨1, 5, 100⟩, ⟨1, 5, 200⟩, ⟨1, 5, 300⟩]

/-- A recording environment whose first timer fires late (6 s measured). -/
def lateTimerEnv : List SegEnv :=
  [⟨1, 6, 100⟩, ⟨1, 5, 200⟩]

/-! ## Helper lemmas -/

/-- Per-word points decompose into whole-word and partial-only counts. -/
theorem sum_wordPoints (cws : List String) :
    ∀ Q : List String,
      (Q.map (wordPoints cws)).sum
        = 2 * (Q.filter (fun w => wholeWordIn w cws)).length
          + (Q.filter (fun w => !wholeWordIn w cws && subWordIn w cws)).length
  | [] => by simp
  | w :: Q => by
    have ih := sum_wordPoints cws Q
    by_cases h1 : wholeWordIn w cws
    · simp [List.filter_cons, wordPoints, h1, ih]
      omega
    · by_cases h2 : subWordIn w cws
      · simp [List.filter_cons, wordPoints, h1, h2, ih]
        omega
      · simp [List.filter_cons, wordPoints, h1, h2, ih]

/-- Membership in the ranked list is membership among relevant segments. -/
theorem mem_rankedSegments (q : String) (segs : List SegRecord) (t : ScoredSeg) :
    t ∈ rankedSegments q segs ↔ t ∈ scoreSegments q segs ∧ 0 < t.score := by
  unfold rankedSegments
  rw [(List.perm_insertionSort rankOrder (relevantSegments q segs)).mem_iff]
  unfold relevantSegments
  rw [List.mem_filter]
  simp

/-! ## C1 - C4, C7, C10, C3 theorems -/

/-- C1: for a done job and a non-empty free-text query, the score the engine
assigns to a segment with a non-empty caption is the sum of +10 for a
verbatim case-insensitive phrase match, +2 per distinct whole-word-matched
query word and +1 per query word matched only as a substring of a caption
word; a segment is returned as relevant exactly when the total is positive,
and no token is counted under both word rules. -/
theorem relevance_score_decomposition
    (j : Job) (hj : j.status = .done) (q : String) (hq : q ≠ "")
    (jobId : String) (segs : List SegRecord) (s : SegRecord) (hc : s.caption ≠ "") :
    relevanceScore q s.caption
        = (if phraseMatch q s.caption then 10 else 0)
          + (2 * ((queryTokens q).filter
                (fun w => wholeWordIn w (captionWords s.caption))).length
             + ((queryTokens q).filter
                (fun w => !wholeWordIn w (captionWords s.caption)
                  && subWordIn w (captionWords s.caption))).length)
      ∧ (queryTokens q).Nodup
      ∧ (∀ w, wholeWordIn w (captionWords s.caption) = true →
            wordPoints (captionWords s.caption) w = 2)
      ∧ (∀ t, t ∈ rankedSegments q segs ↔ t ∈ scoreSegments q segs ∧ 0 < t.score)
      ∧ handleQuery jobId (some j) segs q
          = .success jobId q j segs.length (rankedSegments q segs).length
              (rankedSegments q segs) (buildSummary q (rankedSegments q segs)) := by
  refine ⟨?_, List.nodup_dedup _, ?_, ?_, ?_⟩
  · rw [relevanceScore, sum_wordPoints]
  · intro w hw
    simp [wordPoints, hw]
  · exact mem_rankedSegments q segs
  · simp [handleQuery, hj]

/-- Witness for C1 at a concrete done job, non-empty query and caption. -/
theorem relevance_score_decomposition_witness :
    sampleJob.status = .done ∧ "person walking" ≠ "" ∧
      (SegRecord.mk 15 "A person walks across the parking lot carrying a briefcase").caption ≠ ""
      ∧ (queryTokens "person walking").Nodup :=
  ⟨rfl, by decide, by decide,
    (relevance_score_decomposition sampleJob rfl "person walking" (by decide)
      "job123" sampleSegs
      (SegRecord.mk 15 "A person walks across the parking lot carrying a briefcase")
      (by decide)).2.1⟩

/-- C2: query results are sorted descending by relevance score and, among
equal scores, ascending by segment start time. -/
theorem query_results_sorted (q : String) (segs : List SegRecord) :
    List.Pairwise
      (fun a b => b.score ≤ a.score
        ∧ (a.score = b.score → a.segmentStartTime ≤ b.segmentStartTime))
      (rankedSegments q segs) := by
  have h : List.Sorted rankOrder (rankedSegments q segs) :=
    List.sorted_insertionSort rankOrder (relevantSegments q segs)
  refine h.imp ?_
  intro a b hab
  rcases hab with h1 | ⟨h1, h2⟩
  · exact ⟨le_of_lt h1, fun he => absurd (he ▸ h1) (lt_irrefl _)⟩
  · exact ⟨le_of_eq h1.symm, fun _ => h2⟩

/-- C4: a missing job record or a non-done status yields the structured
error-shaped response (the handler is total, it does not throw). -/
theorem query_job_gate (jobId q : String) (jobRecord : Option Job)
    (segs : List SegRecord)
    (h : jobRecord = none ∨ ∃ j, jobRecord = some j ∧ j.status ≠ .done) :
    handleQuery jobId jobRecord segs q
      = .error jobId q "Job not found or analysis not completed" := by
  rcases h with h | ⟨j, hj, hs⟩
  · rw [h]
    rfl
  · rw [hj]
    simp [handleQuery, hs]

/-- Witness for C4: querying a job whose status is still processing. -/
theorem query_job_gate_witness :
    (some processingJob = none ∨ ∃ j, some processingJob = some j ∧ j.status ≠ .done)
      ∧ handleQuery "upload-42" (some processingJob) sampleSegs "What happens?"
          = .error "upload-42" "What happens?" "Job not found or analysis not completed" :=
  ⟨Or.inr ⟨processingJob, rfl, by decide⟩,
    query_job_gate "upload-42" "What happens?" (some processingJob) sampleSegs
      (Or.inr ⟨processingJob, rfl, by decide⟩)⟩

/-- C3 counterexample: the response shape declared by the repository's own
`VideoQueryResponse` interface (and consumed by `VideoPrompt.submitPrompt`)
has no `searchResults` or `summary` field and instead carries `ai_analysis`,
so the claimed exact field list is wrong. -/
theorem query_response_fields_counterexample :
    ("searchResults" ∈ specQueryResponseFields
        ∧ "searchResults" ∉ videoQueryResponseFields)
      ∧ ("summary" ∈ specQueryResponseFields ∧ "summary" ∉ videoQueryResponseFields)
      ∧ ("ai_analysis" ∈ videoQueryResponseFields
        ∧ "ai_analysis" ∉ specQueryResponseFields)
      ∧ ¬ videoQueryResponseFields.Perm specQueryResponseFields :=
  ⟨⟨by decide, by decide⟩, ⟨by decide, by decide⟩, ⟨by decide, by decide⟩,
    fun h => absurd (List.isPerm_iff.mpr h) (by decide)⟩

/-- C3 amended: the declared response object has exactly the fields jobId,
query, status, jobInfo and ai_analysis, whose analysis part carries
filtered_segments, insights and total_relevant_segments. -/
theorem query_response_fields_declared :
    videoQueryResponseFields.Perm ["jobId", "query", "status", "jobInfo", "ai_analysis"]
      ∧ videoQueryResponseFields.Nodup
      ∧ "filtered_segments" ∈ aiAnalysisFields
      ∧ "insights" ∈ aiAnalysisFields
      ∧ "total_relevant_segments" ∈ aiAnalysisFields :=
  ⟨List.isPerm_iff.mp (by decide), by decide, by decide, by decide, by decide⟩

/-- C7: an uploaded object key triggers the ingestion processor exactly when
it lies under the videos/ path and ends with one of the five allowlisted
video extensions. -/
theorem ingestion_trigger_characterization (key : String) :
    triggersIngestion key
      = (strStartsWith "videos/" key
          && allowedVideoExtensions.any (fun ext => strEndsWith ext key)) := by
  unfold triggersIngestion ingestionTriggerRules allowedVideoExtensions
  cases h : strStartsWith "videos/" key <;>
    simp [List.any_cons, List.any_nil, h]

/-- C10: the upload, the status poll and the query all derive the same job
identifier upload- plus the video id, the two endpoints embed exactly that
identifier in their paths, and the derivation is injective, so distinct
videos never share a backend job. -/
theorem derived_job_id_consistent :
    (∀ v, uploadJobId v = promptJobId v ∧ promptJobId v = statusJobId v)
      ∧ (∀ v, askJobUrl (promptJobId v)
          = apiBaseUrl ++ "/video/" ++ ("upload-" ++ v) ++ "/ask")
      ∧ (∀ v, statusJobUrl (statusJobId v)
          = apiBaseUrl ++ "/video/" ++ ("upload-" ++ v) ++ "/status")
      ∧ Function.Injective uploadJobId := by
  refine ⟨fun v => ⟨rfl, rfl⟩, fun v => rfl, fun v => rfl, ?_⟩
  intro a b h
  have h2 : ("upload-" ++ a).data = ("upload-" ++ b).data := congrArg String.data h
  rw [String.data_append, String.data_append] at h2
  exact String.ext (List.append_cancel_left h2)

/-! ## Recorder lemmas -/

/-- Reassigning start offsets keeps the timestamps. -/
theorem assignStarts_map_timestamp :
    ∀ (l : List RecordedChunk) (acc : ℚ),
      (assignStarts acc l).map (fun c => c.timestamp) = l.map (fun c => c.timestamp)
  | [], _ => rfl
  | c :: l, acc => by
    simp [assignStarts, assignStarts_map_timestamp l (acc + c.duration)]

/-- Reassigning start offsets keeps the durations. -/
theorem assignStarts_map_duration :
    ∀ (l : List RecordedChunk) (acc : ℚ),
      (assignStarts acc l).map (fun c => c.duration) = l.map (fun c => c.duration)
  | [], _ => rfl
  | c :: l, acc => by
    simp [assignStarts, assignStarts_map_duration l (acc + c.duration)]

/-- The reassigned list is contiguous. -/
theorem assignStarts_chain :
    ∀ (l : List RecordedChunk) (acc : ℚ), List.Chain' contiguous (assignStarts acc l)
  | [], _ => List.chain'_nil
  | [c], acc => List.chain'_singleton _
  | c :: c2 :: l, acc => by
    have ih := assignStarts_chain (c2 :: l) (acc + c.duration)
    simp only [assignStarts] at ih ⊢
    exact List.Chain'.cons rfl ih

/-- The first reassigned chunk starts at the accumulator. -/
theorem assignStarts_head (l : List RecordedChunk) (acc : ℚ) :
    (assignStarts acc l).head?.elim True (fun c => c.startTime = acc) := by
  cases l with
  | nil => trivial
  | cons c l => simp [assignStarts]

/-- The last reassigned chunk ends at the accumulator plus all durations. -/
theorem assignStarts_last :
    ∀ (l : List RecordedChunk) (acc : ℚ),
      (assignStarts acc l).getLast?.elim True
        (fun z => z.startTime + z.duration = acc + (l.map (fun c => c.duration)).sum)
  | [], _ => trivial
  | [c], acc => by simp [assignStarts]
  | c :: c2 :: l, acc => by
    have ih := assignStarts_last (c2 :: l) (acc + c.duration)
    rw [assignStarts]
    rw [assignStarts] at ih ⊢
    simpa [List.getLast?_cons_cons, add_assoc] using ih

/-- C9: getChunks returns the chunks sorted by ascending timestamp with start
times reassigned contiguously from 0, and the last chunk ends exactly at the
total duration. -/
theorem getChunks_contiguous (cs : List RecordedChunk) :
    ((getChunks cs).map (fun c => c.timestamp)).Sorted (· ≤ ·)
      ∧ ((getChunks cs).map (fun c => c.timestamp)).Perm
          (cs.map (fun c => c.timestamp))
      ∧ List.Chain' contiguous (getChunks cs)
      ∧ (getChunks cs).head?.elim True (fun c => c.startTime = 0)
      ∧ (getChunks cs).getLast?.elim True
          (fun z => z.startTime + z.duration = getTotalDuration cs) := by
  have hsorted : List.Sorted chunkTsOrder (sortByTimestamp cs) :=
    List.sorted_insertionSort chunkTsOrder cs
  have hperm : (sortByTimestamp cs).Perm cs := List.perm_insertionSort chunkTsOrder cs
  refine ⟨?_, ?_, ?_, ?_, ?_⟩
  · rw [getChunks, assignStarts_map_timestamp]
    exact List.pairwise_map.mpr hsorted
  · rw [getChunks, assignStarts_map_timestamp]
    exact hperm.map _
  · exact assignStarts_chain _ _
  · exact assignStarts_head _ _
  · have h := assignStarts_last (sortByTimestamp cs) 0
    rw [getChunks]
    have hsum : ((sortByTimestamp cs).map (fun c => c.duration)).sum
        = getTotalDuration cs := (hperm.map (fun c => c.duration)).sum_eq
    cases hlast : (assignStarts 0 (sortByTimestamp cs)).getLast? with
    | none => trivial
    | some z =>
      rw [hlast] at h
      simpa [hsum] using h

/-- Segment production appends exactly the measured elapsed time of every
data-bearing interval, in order. -/
theorem recordLoop_durations :
    ∀ (es : List SegEnv) (st : RecState),
      ((es.foldl processSegment st).chunks.map (fun c => c.duration))
        = st.chunks.map (fun c => c.duration)
          ++ ((es.filter (fun e => decide (0 < e.dataCount))).map (fun e => e.elapsed))
  | [], st => by simp
  | e :: es, st => by
    rw [List.foldl_cons, recordLoop_durations es (processSegment st e)]
    by_cases h : 0 < e.dataCount
    · simp [processSegment, h, List.filter_cons]
    · simp [processSegment, h, List.filter_cons]

/-- One segment step preserves the recorder invariant. -/
theorem recWF_step (st : RecState) (e : SegEnv) (h : recWF st) :
    recWF (processSegment st e) := by
  obtain ⟨hchain, hhead, hlast, hempty⟩ := h
  unfold processSegment
  by_cases hd : 0 < e.dataCount
  · rw [if_pos hd]
    refine ⟨?_, ?_, ?_, ?_⟩
    · rw [List.chain'_append]
      refine ⟨hchain, List.chain'_singleton _, ?_⟩
      intro x hx y hy
      simp only [List.head?_cons, Option.mem_def, Option.some.injEq] at hy
      subst hy
      rw [Option.mem_def] at hx
      rw [hx] at hlast
      exact hlast.symm
    · cases hc : st.chunks with
      | nil =>
        simp only [hc, List.nil_append, List.head?_cons, Option.elim]
        exact hempty hc
      | cons a l =>
        rw [hc] at hhead
        simpa [hc] using hhead
    · simp [List.getLast?_concat]
    · intro hfalse
      exact absurd hfalse (by simp)
  · rw [if_neg hd]
    exact ⟨hchain, hhead, hlast, hempty⟩

/-- The recorder invariant holds along the whole loop. -/
theorem recWF_foldl :
    ∀ (es : List SegEnv) (st : RecState), recWF st → recWF (es.foldl processSegment st)
  | [], _, h => h
  | e :: es, st, h => recWF_foldl es (processSegment st e) (recWF_step st e h)

/-- C8 counterexample: with the first stop timer firing late (6 s measured,
webcam-recorder.ts records the measured elapsed time, line 191), the first -
non-last - produced segment does not have the nominal fixed 5-second
duration. -/
theorem segment_duration_counterexample :
    (recordLoop lateTimerEnv).chunks.length = 2
      ∧ ((recordLoop lateTimerEnv).chunks.map (fun c => c.duration)) = [6, 5]
      ∧ ((recordLoop lateTimerEnv).chunks.head?.map (fun c => c.duration)) = some 6
      ∧ ¬ (6 : ℚ) = nominalSegmentSeconds := by
  refine ⟨by decide, by decide, by decide, by decide⟩

/-- C8 amended: the recorder produces an ordered, contiguous sequence of
segments - each carries a start offset equal to the sum of the measured
durations of all earlier segments, starting at 0 - and each segment's
duration is the measured elapsed time of its interval (nominally the fixed
5-second timer window: when every timer fires exactly on the window, every
segment's duration is exactly the nominal 5 seconds). -/
theorem segment_stream_structure (es : List SegEnv) :
    List.Chain' contiguous (recordLoop es).chunks
      ∧ (recordLoop es).chunks.head?.elim True (fun c => c.startTime = 0)
      ∧ ((recordLoop es).chunks.map (fun c => c.duration))
          = ((es.filter (fun e => decide (0 < e.dataCount))).map (fun e => e.elapsed))
      ∧ (es.all (fun e => e.elapsed == nominalSegmentSeconds) = true →
          (recordLoop es).chunks.all
            (fun c => c.duration == nominalSegmentSeconds) = true) := by
  have hwf : recWF (recordLoop es) :=
    recWF_foldl es initRecState ⟨List.chain'_nil, trivial, trivial, fun _ => rfl⟩
  have hdur : ((recordLoop es).chunks.map (fun c => c.duration))
      = ((es.filter (fun e => decide (0 < e.dataCount))).map (fun e => e.elapsed)) := by
    rw [recordLoop, recordLoop_durations es initRecState]
    simp [initRecState]
  refine ⟨hwf.1, hwf.2.1, hdur, ?_⟩
  intro hall
  rw [List.all_eq_true]
  intro c hc
  rw [beq_iff_eq]
  have hmem : c.duration ∈ (recordLoop es).chunks.map (fun c => c.duration) :=
    List.mem_map_of_mem _ hc
  rw [hdur] at hmem
  obtain ⟨e, he, hee⟩ := List.mem_map.mp hmem
  have hes : e ∈ es := List.mem_of_mem_filter he
  have := List.all_eq_true.mp hall e hes
  rw [beq_iff_eq] at this
  rw [← hee, this]

/-- Witness for C8 (amended) at an environment whose timers fire exactly. -/
theorem segment_stream_structure_witness :
    idealEnv.all (fun e => e.elapsed == nominalSegmentSeconds) = true
      ∧ (recordLoop idealEnv).chunks.all
          (fun c => c.duration == nominalSegmentSeconds) = true :=
  ⟨by decide, (segment_stream_structure idealEnv).2.2.2 (by decide)⟩

/-! ## Caption retry and isolation lemmas -/

/-- The retry wrapper never makes more attempts than the fixed bound. -/
theorem callWithRetry_attempts_le (env : Nat → Option CaptionResult) :
    ∀ (fuel start : Nat), (callWithRetry env start fuel).2 ≤ fuel
  | 0, _ => Nat.le_refl 0
  | fuel + 1, start => by
    rw [callWithRetry]
    cases env start with
    | some r => simp
    | none =>
      simp only []
      have := callWithRetry_attempts_le env fuel (start + 1)
      omega

/-- Updating the first matching chunk keeps the length. -/
theorem updateFirst_length (p : RecordedChunk → Bool) (f : RecordedChunk → RecordedChunk) :
    ∀ l : List RecordedChunk, (updateFirst p f l).length = l.length
  | [] => rfl
  | c :: l => by
    by_cases h : p c
    · simp [updateFirst, h]
    · simp [updateFirst, h, updateFirst_length p f l]

/-- Updating the first matching chunk leaves every non-matching chunk as it
was (position by position). -/
theorem updateFirst_forall₂ (p : RecordedChunk → Bool) (f : RecordedChunk → RecordedChunk) :
    ∀ l : List RecordedChunk,
      List.Forall₂ (fun c c2 => p c = false → c2 = c) l (updateFirst p f l)
  | [] => List.Forall₂.nil
  | c :: l => by
    by_cases h : p c
    · rw [updateFirst, if_pos h]
      exact List.Forall₂.cons (fun hfalse => absurd h (by simp [hfalse]))
        (List.forall₂_same.mpr (fun x _ _ => rfl))
    · rw [updateFirst, if_neg h]
      exact List.Forall₂.cons (fun _ => rfl) (updateFirst_forall₂ p f l)

/-- If some chunk matches, the updated list contains its updated form. -/
theorem updateFirst_stores (p : RecordedChunk → Bool) (f : RecordedChunk → RecordedChunk) :
    ∀ l : List RecordedChunk, l.any p = true →
      ∃ c, c ∈ l ∧ p c = true ∧ f c ∈ updateFirst p f l
  | [], h => by simp at h
  | c :: l, h => by
    by_cases hc : p c
    · exact ⟨c, List.mem_cons_self c l, hc, by rw [updateFirst, if_pos hc]; exact List.mem_cons_self _ _⟩
    · have h2 : l.any p = true := by
        rcases List.any_eq_true.mp h with ⟨x, hx, hpx⟩
        rcases List.mem_cons.mp hx with rfl | hx2
        · exact absurd hpx (by simp [hc])
        · exact List.any_eq_true.mpr ⟨x, hx2, hpx⟩
      obtain ⟨x, hx, hpx, hmem⟩ := updateFirst_stores p f l h2
      exact ⟨x, List.mem_cons_of_mem c hx, hpx,
        by rw [updateFirst, if_neg hc]; exact List.mem_cons_of_mem c hmem⟩

/-- C5: when the (retried) inference call for a chunk exhausts its attempt
bound and fails, the number of attempts stays within the bound, the chunk
with the matching timestamp is recorded as failed (its per-segment error is
stored and its processing flag cleared), every other chunk is left exactly
as it was, and the chunk list keeps its length - one segment's failure never
blocks the others. -/
theorem caption_failure_isolated (env : Nat → Option CaptionResult)
    (maxAttempts : Nat) (chunks : List RecordedChunk) (ts : Nat) (errMsg : String)
    (hfail : (analyzeVideoChunk env maxAttempts).1 = none) :
    (settleChunkCaption env maxAttempts chunks ts errMsg).2 ≤ maxAttempts
      ∧ (settleChunkCaption env maxAttempts chunks ts errMsg).1
          = updateFirst (fun c => c.timestamp == ts) (applyCaptionFailure errMsg) chunks
      ∧ (settleChunkCaption env maxAttempts chunks ts errMsg).1.length = chunks.length
      ∧ List.Forall₂ (fun c c2 => (c.timestamp == ts) = false → c2 = c) chunks
          (settleChunkCaption env maxAttempts chunks ts errMsg).1
      ∧ (chunks.any (fun c => c.timestamp == ts) = true →
          ∃ c2, c2 ∈ (settleChunkCaption env maxAttempts chunks ts errMsg).1
            ∧ c2.captionError = some errMsg ∧ c2.captionProcessing = false) := by
  have hout : (settleChunkCaption env maxAttempts chunks ts errMsg).1
      = updateFirst (fun c => c.timestamp == ts) (applyCaptionFailure errMsg) chunks := by
    simp only [settleChunkCaption]
    rw [hfail]
    rfl
  refine ⟨callWithRetry_attempts_le env maxAttempts 0, hout, ?_, ?_, ?_⟩
  · rw [hout]
    exact updateFirst_length _ _ chunks
  · rw [hout]
    exact updateFirst_forall₂ _ _ chunks
  · intro hany
    obtain ⟨c, _, _, hmem⟩ :=
      updateFirst_stores (fun c => c.timestamp == ts) (applyCaptionFailure errMsg) chunks hany
    exact ⟨applyCaptionFailure errMsg c, hout ▸ hmem, rfl, rfl⟩

/-- Witness for C5: a chunk list with two chunks, an always-failing
environment with a bound of 3 attempts: the matched chunk ends up failed. -/
theorem caption_failure_isolated_witness :
    (analyzeVideoChunk envNone 3).1 = none
      ∧ sampleChunks.any (fun c => c.timestamp == 100) = true
      ∧ (settleChunkCaption envNone 3 sampleChunks 100 "inference failed").2 ≤ 3
      ∧ ∃ c2, c2 ∈ (settleChunkCaption envNone 3 sampleChunks 100 "inference failed").1
          ∧ c2.captionError = some "inference failed" ∧ c2.captionProcessing = false :=
  ⟨rfl, by decide,
    (caption_failure_isolated envNone 3 sampleChunks 100 "inference failed" rfl).1,
    (caption_failure_isolated envNone 3 sampleChunks 100 "inference failed" rfl).2.2.2.2
      (by decide)⟩

/-! ## Job lifecycle lemmas -/

/-- A terminal job state absorbs every event. -/
theorem jobStep_terminal (s : JobState) (e : JobEvent) (h : isTerminal s = true) :
    jobStep s e = s := by
  have hs : s.status = .done ∨ s.status = .error := by
    simpa [isTerminal] using h
  cases e with
  | splitFail => rcases hs with h1 | h1 <;> simp [jobStep, h1]
  | splitSuccess n => rcases hs with h1 | h1 <;> simp [jobStep, h1]
  | settle => rcases hs with h1 | h1 <;> simp [jobStep, h1]

/-- Once the counter matches the total and the job is past pending, every
event is a no-op (idempotent settlement). -/
theorem jobStep_frozen (s : JobState) (e : JobEvent) (h1 : s.status ≠ .pending)
    (h2 : s.processed = s.total) : jobStep s e = s := by
  cases e with
  | splitFail => simp [jobStep, h1]
  | splitSuccess n => simp [jobStep, h1]
  | settle =>
    have hnl : ¬ s.processed < s.total := by omega
    simp [jobStep, hnl]

/-- No transition produces a pending state: a pending result was pending
already and the step was a no-op. -/
theorem jobStep_pending (s : JobState) (e : JobEvent)
    (h : (jobStep s e).status = .pending) : jobStep s e = s ∧ s.status = .pending := by
  cases e with
  | splitFail =>
    by_cases hp : s.status = .pending
    · simp [jobStep, hp] at h
    · simp only [jobStep, if_neg hp] at h ⊢
      exact ⟨by simp, h⟩
  | splitSuccess n =>
    by_cases hp : s.status = .pending
    · simp [jobStep, hp] at h
    · simp only [jobStep, if_neg hp] at h ⊢
      exact ⟨by simp, h⟩
  | settle =>
    by_cases hc : s.status = .processing ∧ s.processed < s.total
    · simp only [jobStep, if_pos hc] at h
      by_cases hd : s.processed + 1 = s.total
      · simp [hd] at h
      · simp [hd] at h
    · simp only [jobStep, if_neg hc] at h ⊢
      exact ⟨by simp, h⟩

/-- One step preserves the counter bound. -/
theorem jobStep_inv (s : JobState) (e : JobEvent) (h : s.processed ≤ s.total) :
    (jobStep s e).processed ≤ (jobStep s e).total := by
  cases e with
  | splitFail =>
    by_cases hp : s.status = .pending
    · simp only [jobStep, if_pos hp]
      exact h
    · simp only [jobStep, if_neg hp]
      exact h
  | splitSuccess n =>
    by_cases hp : s.status = .pending
    · simp only [jobStep, if_pos hp]
      exact Nat.zero_le n
    · simp only [jobStep, if_neg hp]
      exact h
  | settle =>
    by_cases hc : s.status = .processing ∧ s.processed < s.total
    · simp only [jobStep, if_pos hc]
      exact hc.2
    · simp only [jobStep, if_neg hc]
      exact h

/-- The counter bound holds along every run. -/
theorem foldl_jobStep_inv :
    ∀ (es : List JobEvent) (s : JobState), s.processed ≤ s.total →
      (es.foldl jobStep s).processed ≤ (es.foldl jobStep s).total
  | [], _, h => h
  | e :: es, s, h => foldl_jobStep_inv es (jobStep s e) (jobStep_inv s e h)

/-- The pending-implies-settled side condition holds along every run. -/
theorem foldl_jobStep_pending :
    ∀ (es : List JobEvent) (s : JobState),
      (s.status = .pending → s.processed = s.total) →
      ((es.foldl jobStep s).status = .pending →
        (es.foldl jobStep s).processed = (es.foldl jobStep s).total)
  | [], _, h => h
  | e :: es, s, h =>
    foldl_jobStep_pending es (jobStep s e) (fun hpend => by
      obtain ⟨heq, hsp⟩ := jobStep_pending s e hpend
      rw [heq]
      exact h hsp)

/-- No terminal transition ever happens again after a terminal state. -/
theorem termFlips_terminal :
    ∀ (es : List JobEvent) (s : JobState), isTerminal s = true → termFlips s es = 0
  | [], _, _ => rfl
  | e :: es, s, h => by
    rw [termFlips, jobStep_terminal s e h, termFlips_terminal es s h]
    simp [h]

/-- At most one terminal transition happens along any trace. -/
theorem termFlips_le_one :
    ∀ (es : List JobEvent) (s : JobState), termFlips s es ≤ 1
  | [], _ => by simp [termFlips]
  | e :: es, s => by
    rw [termFlips]
    by_cases hc : isTerminal s = false ∧ isTerminal (jobStep s e) = true
    · rw [if_pos hc, termFlips_terminal es (jobStep s e) hc.2]
    · rw [if_neg hc]
      simpa using termFlips_le_one es (jobStep s e)

/-- Once the counter has reached the total (past pending), it never drops
below it again, so it cannot be reached twice. -/
theorem reachFlips_zero :
    ∀ (es : List JobEvent) (s : JobState), s.status ≠ .pending →
      s.processed = s.total → reachFlips s es = 0
  | [], _, _, _ => rfl
  | e :: es, s, h1, h2 => by
    rw [reachFlips, jobStep_frozen s e h1 h2, reachFlips_zero es s h1 h2]
    have hnl : ¬ s.processed < s.total := by omega
    simp [hnl]

/-- The counter reaches the total at most once along any trace. -/
theorem reachFlips_le_one :
    ∀ (es : List JobEvent) (s : JobState),
      (s.status = .pending → s.processed = s.total) → reachFlips s es ≤ 1
  | [], _, _ => by simp [reachFlips]
  | e :: es, s, hp => by
    rw [reachFlips]
    by_cases hc : s.processed < s.total
        ∧ (jobStep s e).processed = (jobStep s e).total
    · rw [if_pos hc]
      have hnp : (jobStep s e).status ≠ .pending := by
        intro hpend
        obtain ⟨heq, hsp⟩ := jobStep_pending s e hpend
        exact absurd (hp hsp) (Nat.ne_of_lt hc.1)
      rw [reachFlips_zero es (jobStep s e) hnp hc.2]
    · rw [if_neg hc]
      have hp2 : (jobStep s e).status = .pending →
          (jobStep s e).processed = (jobStep s e).total := fun hpend => by
        obtain ⟨heq, hsp⟩ := jobStep_pending s e hpend
        rw [heq]
        exact hp hsp
      simpa using reachFlips_le_one es (jobStep s e) hp2

/-- A transition into a terminal status happens only with the counter at the
total. -/
theorem terminal_transition_at_total (s : JobState) (e : JobEvent)
    (hp : s.status = .pending → s.processed = s.total)
    (h1 : isTerminal s = false) (h2 : isTerminal (jobStep s e) = true) :
    (jobStep s e).processed = (jobStep s e).total := by
  cases e with
  | splitFail =>
    by_cases hpend : s.status = .pending
    · simp only [jobStep, if_pos hpend]
      exact hp hpend
    · simp only [jobStep, if_neg hpend] at h2 ⊢
      exact absurd h2 (by simp [h1])
  | splitSuccess n =>
    by_cases hpend : s.status = .pending
    · simp only [jobStep, if_pos hpend] at h2
      simp [isTerminal] at h2
    · simp only [jobStep, if_neg hpend] at h2 ⊢
      exact absurd h2 (by simp [h1])
  | settle =>
    by_cases hc : s.status = .processing ∧ s.processed < s.total
    · simp only [jobStep, if_pos hc] at h2 ⊢
      by_cases hdone : s.processed + 1 = s.total
      · exact hdone
      · rw [if_neg hdone] at h2
        simp [isTerminal] at h2
    · simp only [jobStep, if_neg hc] at h2 ⊢
      exact absurd h2 (by simp [h1])

/-- Running `k` settlements from a processing state with `p + k = total`
ends done at the total, with exactly one terminal transition and exactly one
counter arrival. -/
theorem settle_run :
    ∀ (k p t : Nat), p + k = t → p < t →
      (List.replicate k JobEvent.settle).foldl jobStep ⟨.processing, t, p⟩
          = ⟨.done, t, t⟩
        ∧ termFlips ⟨.processing, t, p⟩ (List.replicate k .settle) = 1
        ∧ reachFlips ⟨.processing, t, p⟩ (List.replicate k .settle) = 1
  | 0, p, t, hpk, hlt => absurd hpk (by omega)
  | k + 1, p, t, hpk, hlt => by
    have hstep : jobStep ⟨.processing, t, p⟩ .settle
        = ⟨if p + 1 = t then .done else .processing, t, p + 1⟩ := by
      simp [jobStep, hlt]
    rw [List.replicate_succ, List.foldl_cons, termFlips, reachFlips, hstep]
    by_cases hdone : p + 1 = t
    · have hk0 : k = 0 := by omega
      subst hk0
      rw [if_pos hdone]
      refine ⟨by simpa using hdone ▸ rfl, ?_, ?_⟩
      · rw [termFlips_terminal _ _ (by simp [isTerminal])]
        simp [isTerminal]
      · rw [reachFlips_zero _ _ (by simp) (by simpa using hdone)]
        simp [hlt, hdone]
    · rw [if_neg hdone]
      have ih := settle_run k (p + 1) t (by omega) (by omega)
      refine ⟨ih.1, ?_, ?_⟩
      · rw [ih.2.1]
        simp [isTerminal]
      · rw [ih.2.2]
        have : ¬ (p < t ∧ p + 1 = t) := fun hx => hdone hx.2
        simp only [JobState.mk.injEq]
        simp [hdone]

/-- C6: along every trace the counter never exceeds the total, at most one
terminal transition and at most one counter arrival happen, a terminal
transition only occurs with the counter at the total, and the canonical
complete run of a job with n segments (split success then n settlements)
ends done at n with exactly one terminal transition and exactly one counter
arrival. -/
theorem job_counter_lifecycle (n : Nat) (hn : 1 ≤ n) :
    (∀ es : List JobEvent, (runJob es).processed ≤ (runJob es).total)
      ∧ (∀ es : List JobEvent, termFlips initialJobState es ≤ 1)
      ∧ (∀ es : List JobEvent, reachFlips initialJobState es ≤ 1)
      ∧ (∀ (es : List JobEvent) (e : JobEvent),
          isTerminal (runJob es) = false → isTerminal (jobStep (runJob es) e) = true →
          (jobStep (runJob es) e).processed = (jobStep (runJob es) e).total)
      ∧ runJob (JobEvent.splitSuccess n :: List.replicate n .settle) = ⟨.done, n, n⟩
      ∧ termFlips initialJobState (JobEvent.splitSuccess n :: List.replicate n .settle) = 1
      ∧ reachFlips initialJobState (JobEvent.splitSuccess n :: List.replicate n .settle) = 1 := by
  have hfirst : jobStep initialJobState (JobEvent.splitSuccess n)
      = ⟨.processing, n, 0⟩ := by
    simp [jobStep, initialJobState]
  have hrun := settle_run n 0 n (by omega) (by omega)
  refine ⟨?_, ?_, ?_, ?_, ?_, ?_, ?_⟩
  · intro es
    exact foldl_jobStep_inv es initialJobState (Nat.le_refl 0)
  · intro es
    exact termFlips_le_one es initialJobState
  · intro es
    exact reachFlips_le_one es initialJobState (fun _ => rfl)
  · intro es e
    exact terminal_transition_at_total (runJob es) e
      (foldl_jobStep_pending es initialJobState (fun _ => rfl))
  · rw [runJob, List.foldl_cons, hfirst]
    exact hrun.1
  · rw [termFlips, hfirst, hrun.2.1]
    simp [isTerminal, initialJobState]
  · rw [reachFlips, hfirst, hrun.2.2]
    simp [initialJobState]

/-- Witness for C6 at a job with 3 segments. -/
theorem job_counter_lifecycle_witness :
    1 ≤ 3
      ∧ runJob (JobEvent.splitSuccess 3 :: List.replicate 3 .settle)
          = ⟨.done, 3, 3⟩
      ∧ termFlips initialJobState (JobEvent.splitSuccess 3 :: List.replicate 3 .settle) = 1 :=
  ⟨by decide, (job_counter_lifecycle 3 (by decide)).2.2.2.2.1,
    (job_counter_lifecycle 3 (by decide)).2.2.2.2.2.1⟩

end Visionaree
